import Mathlib

/-!
Verification of the reactive core of `tvmanus/vanilla-spirit`: the pub/sub
state store (`createStore` in `.github/blueprints/apps/demo-app.md`, also in
the state-management blueprint) and the `InteractionModule` component
(`src/components/InteractionModule.js`), wired together as in `src/main.js`.

The embedding models JavaScript objects as insertion-ordered association
lists (property keys are unique in a real JS object, so key-`Nodup`
hypotheses appear where lookup facts are stated), object references as
addresses into an append-only heap (object spread always allocates, and the
store never mutates an existing object, so old addresses keep their
contents), and registered listeners as identities paired with a small
behaviour language (pure observer, thrower, one-shot re-entrant `setState`,
or the demo component's `update`).  `setState` is interpreted with explicit
fuel bounding re-entrant nesting depth; the listener iteration itself is
structural, matching `listeners.forEach`, which reads the closed-over
`state` variable afresh at every single listener invocation.
-/

namespace VanillaSpirit

/-- A JavaScript value as far as this program can observe it. -/
inductive JSVal where
  | str (s : String)
  | num (n : Int)
  | boolean (b : Bool)
  | undefined
  | nul
deriving DecidableEq

/-- JS `ToString`, as applied by the DOM `value` setter and by template
literals.  Integers print as in JS. -/
def jsToString : JSVal → String
  | .str s => s
  | .num n => toString n
  | .boolean true => "true"
  | .boolean false => "false"
  | .undefined => "undefined"
  | .nul => "null"

/-- JS truthiness of a value (`''`, `0`, `false`, `undefined`, `null` are
falsy). -/
def jsTruthy : JSVal → Bool
  | .str s => !(s == "")
  | .num n => !(n == 0)
  | .boolean b => b
  | .undefined => false
  | .nul => false

/-- JS `a || b`: `a` when truthy, else `b`. -/
def jsOr (a b : JSVal) : JSVal :=
  if jsTruthy a then a else b

/-- A JavaScript object: insertion-ordered list of (key, value) properties.
A real JS object never holds the same key twice. -/
abbrev Obj := List (String × JSVal)

/-- Property lookup: the value at the first occurrence of the key, if any. -/
def jsGet? : Obj → String → Option JSVal
  | [], _ => none
  | (k, v) :: rest, k' => if k' = k then some v else jsGet? rest k'

/-- Property access `o.k`: `undefined` when the key is absent. -/
def jsGet (o : Obj) (k : String) : JSVal :=
  (jsGet? o k).getD .undefined

/-- The `[[Set]]` step of object spread: overwrite the value at an existing
key in place (keeping its position), else append the new property. -/
def setKey (o : Obj) (k : String) (v : JSVal) : Obj :=
  if o.any (fun kv => kv.1 == k) then
    o.map (fun kv => if kv.1 = k then (k, v) else kv)
  else o ++ [(k, v)]

/-- The object produced by `{ ...s, ...p }`: start from `s`'s properties and
set each property of `p` in order. -/
def mergeObj (s p : Obj) : Obj :=
  p.foldl (fun acc kv => setKey acc kv.1 kv.2) s

theorem jsGet?_cons (k0 : String) (v0 : JSVal) (rest : Obj) (k' : String) :
    jsGet? ((k0, v0) :: rest) k' = if k' = k0 then some v0 else jsGet? rest k' :=
  rfl

theorem jsGet?_append (a b : Obj) (k : String) :
    jsGet? (a ++ b) k = match jsGet? a k with
      | some v => some v
      | none => jsGet? b k := by
  induction a with
  | nil => simp [jsGet?]
  | cons hd tl ih =>
    obtain ⟨k0, v0⟩ := hd
    by_cases h : k = k0 <;> simp [jsGet?, h, ih]

theorem jsGet?_map_set (o : Obj) (k k' : String) (v : JSVal) :
    jsGet? (o.map (fun kv => if kv.1 = k then (k, v) else kv)) k' =
      if k' = k then (jsGet? o k).map (fun _ => v) else jsGet? o k' := by
  induction o with
  | nil => simp [jsGet?]
  | cons hd tl ih =>
    obtain ⟨k0, v0⟩ := hd
    rw [List.map_cons]
    by_cases h0 : k0 = k
    · subst h0
      rw [if_pos (rfl : ((k0, v0) : String × JSVal).1 = k0),
        jsGet?_cons, jsGet?_cons, jsGet?_cons, if_pos rfl]
      by_cases h' : k' = k0
      · simp [h']
      · simp only [if_neg h', ih, if_neg h']
    · have h0' : ¬ ((k0, v0) : String × JSVal).1 = k := h0
      rw [if_neg h0', jsGet?_cons, jsGet?_cons]
      by_cases h' : k' = k0
      · have hne : ¬ k' = k := by
          intro hk
          exact h0 (h'.symm.trans hk)
        rw [if_pos h', if_neg hne, jsGet?_cons, if_pos h']
      · rw [if_neg h', ih, jsGet?_cons]
        have hkk0 : ¬ k = k0 := fun hk => h0 hk.symm
        rw [if_neg hkk0, if_neg h']

theorem any_key_iff (o : Obj) (k : String) :
    o.any (fun kv => kv.1 == k) = true ↔ ∃ v, jsGet? o k = some v := by
  induction o with
  | nil => simp [jsGet?]
  | cons hd tl ih =>
    obtain ⟨k0, v0⟩ := hd
    by_cases h : k = k0
    · subst h
      simp [jsGet?]
    · have h' : ¬ k0 = k := fun hh => h hh.symm
      simp [jsGet?, h, h', ih]

theorem jsGet?_setKey (o : Obj) (k k' : String) (v : JSVal) :
    jsGet? (setKey o k v) k' = if k' = k then some v else jsGet? o k' := by
  unfold setKey
  by_cases hany : o.any (fun kv => kv.1 == k) = true
  · obtain ⟨w, hw⟩ := (any_key_iff o k).mp hany
    rw [if_pos hany, jsGet?_map_set]
    by_cases h' : k' = k <;> simp [h', hw]
  · rw [if_neg hany, jsGet?_append]
    have hnone : jsGet? o k = none := by
      cases hv : jsGet? o k with
      | none => rfl
      | some w => exact absurd ((any_key_iff o k).mpr ⟨w, hv⟩) hany
    by_cases h' : k' = k
    · subst h'
      simp [hnone, jsGet?]
    · cases hv : jsGet? o k' with
      | none => simp [jsGet?, h']
      | some w => simp [hv, h']

theorem jsGet?_none_of_not_mem_keys (p : Obj) (k : String)
    (h : k ∉ p.map Prod.fst) : jsGet? p k = none := by
  induction p with
  | nil => rfl
  | cons hd tl ih =>
    obtain ⟨k0, v0⟩ := hd
    simp only [List.map_cons, List.mem_cons] at h
    push_neg at h
    simp [jsGet?, h.1, ih h.2]

/-- Lookup in `{ ...s, ...p }`: every key of `p` yields `p`'s value, every
other key falls through to `s` — provided `p` is a genuine object (no
duplicate keys). -/
theorem jsGet?_mergeObj (s p : Obj) (k : String)
    (hnd : (p.map Prod.fst).Nodup) :
    jsGet? (mergeObj s p) k = match jsGet? p k with
      | some v => some v
      | none => jsGet? s k := by
  induction p generalizing s with
  | nil => simp [mergeObj, jsGet?]
  | cons hd tl ih =>
    obtain ⟨k0, v0⟩ := hd
    simp only [List.map_cons, List.nodup_cons] at hnd
    have hstep : mergeObj s ((k0, v0) :: tl) = mergeObj (setKey s k0 v0) tl := rfl
    rw [hstep, ih _ hnd.2]
    by_cases h : k = k0
    · subst h
      have : jsGet? tl k = none := jsGet?_none_of_not_mem_keys tl k hnd.1
      simp [jsGet?, this, jsGet?_setKey]
    · cases hv : jsGet? tl k with
      | none => simp [jsGet?, h, hv, jsGet?_setKey]
      | some w => simp [jsGet?, h, hv]

/-- An arbitrary JavaScript argument as passed to `setState` /
`onAction`. -/
inductive JSArg where
  | obj (o : Obj)
  | nul
  | undefined
  | num (n : Int)
  | boolean (b : Bool)
  | str (s : String)
deriving DecidableEq

/-- The own enumerable properties copied by object spread `{ ...a }`:
the properties of an object, none for `null` / `undefined` / numbers /
booleans, and the index properties for a string. -/
def spreadKVs : JSArg → Obj
  | .obj o => o
  | .nul => []
  | .undefined => []
  | .num _ => []
  | .boolean _ => []
  | .str s => s.data.enum.map (fun ic => (toString ic.1, JSVal.str (String.mk [ic.2])))

/-- The DOM subtree owned by one `InteractionModule` instance: the node
identities of the container `div`, the display `input` and the trigger
`button`, the input's current `value` property, and the event types with
listeners attached to the button (in attachment order). -/
structure ComponentDom where
  containerId : Nat
  inputId : Nat
  buttonId : Nat
  inputValue : String
  buttonEvents : List String
deriving DecidableEq

/-- Construction of `InteractionModule(state, onAction)`
(`src/components/InteractionModule.js`): builds the subtree (node
identities supplied by the host document), seeds the input's value with
`state.text || ''` (stringified by the template literal), and attaches the
`mousedown` / `mouseup` / `mouseleave` listeners to the button.  The
`onAction` wiring is modelled at the event-dispatch level below. -/
def InteractionModule (state : Obj) (cid iid bid : Nat) : ComponentDom :=
  { containerId := cid
    inputId := iid
    buttonId := bid
    inputValue := jsToString (jsOr (jsGet state "text") (.str ""))
    buttonEvents := ["mousedown", "mouseup", "mouseleave"] }

/-- The component's `update(newState)`: writes `input.value` only when
`input.value !== newState.text` (strict inequality between the string
property and the state field; the setter stringifies what it is given).
Also returns how many DOM property writes the call performed. -/
def interactionUpdate (dom : ComponentDom) (newState : Obj) : ComponentDom × Nat :=
  if JSVal.str dom.inputValue ≠ jsGet newState "text" then
    ({ dom with inputValue := jsToString (jsGet newState "text") }, 1)
  else (dom, 0)

/-- Outcome of running a store operation: normal return, an exception
propagating out, or interpreter fuel exhausted (never the program's own
behaviour — only a bound on re-entrant nesting depth). -/
inductive SOut where
  | ok
  | exn
  | fuelOut
deriving DecidableEq

/-- One listener invocation: which listener ran and which heap address
(object reference) it received as its `state` argument. -/
structure SEvent where
  lid : Nat
  argRef : Nat
deriving DecidableEq

/-- What a registered listener callback does when invoked: passively
receive the state, throw, call `store.setState(q)` the first time it ever
runs (and passively receive thereafter), or run the demo subscriber
`(newState) => interaction.update(newState)` from `src/main.js`. -/
inductive LBeh where
  | observer
  | thrower
  | reenterOnce (q : Obj)
  | updateDom
deriving DecidableEq

/-- The store and its world: the append-only heap of allocated state
objects, the address held by the closed-over `state` variable, the
subscriber array (listener identities, in subscription order), which
`reenterOnce` listeners have already fired, and the demo component's DOM. -/
structure Machine where
  heap : List Obj
  stateRef : Nat
  listeners : List Nat
  fired : List Nat
  dom : ComponentDom
deriving DecidableEq

/-- Dereference a heap address. -/
def getObj (m : Machine) (r : Nat) : Obj :=
  m.heap.getD r []

/-- `getState()`: the object currently referenced by `state`. -/
def getState (m : Machine) : Obj :=
  getObj m m.stateRef

/-- `subscribe(listener)`: `listeners.push(listener)`. -/
def subscribe (m : Machine) (l : Nat) : Machine :=
  { m with listeners := m.listeners ++ [l] }

/-- Assignment of listener identities to callback behaviours. -/
abbrev ListenerEnv := Nat → LBeh

/-- Result of a store operation: final machine, the trace of listener
invocations it performed (in order), and its outcome. -/
abbrev RunResult := Machine × List SEvent × SOut

/-- The notification loop `listeners.forEach(listener => listener(state))`.
`forEach` reads the closed-over `state` variable afresh at every single
invocation, so each event records the address current at that moment.
`setS` is the store's `setState` as visible to re-entrant listeners.  An
exception from a listener aborts the loop and propagates. -/
def notifyGo (env : ListenerEnv) (setS : Machine → Obj → RunResult) :
    Machine → List Nat → RunResult
  | m, [] => (m, [], .ok)
  | m, l :: rest =>
    let ev : SEvent := ⟨l, m.stateRef⟩
    match env l with
    | .observer =>
      let r := notifyGo env setS m rest
      (r.1, ev :: r.2.1, r.2.2)
    | .thrower => (m, [ev], .exn)
    | .updateDom =>
      let m2 := { m with dom := (interactionUpdate m.dom (getState m)).1 }
      let r := notifyGo env setS m2 rest
      (r.1, ev :: r.2.1, r.2.2)
    | .reenterOnce q =>
      if l ∈ m.fired then
        let r := notifyGo env setS m rest
        (r.1, ev :: r.2.1, r.2.2)
      else
        let r1 := setS { m with fired := l :: m.fired } q
        match r1.2.2 with
        | .ok =>
          let r2 := notifyGo env setS r1.1 rest
          (r2.1, ev :: (r1.2.1 ++ r2.2.1), r2.2.2)
        | o => (r1.1, ev :: r1.2.1, o)

/-- `setState(newState)` (`createStore` in the demo-app blueprint):
`state = { ...state, ...newState }` — allocate the shallow merge and point
`state` at it — and only then `listeners.forEach(listener =>
listener(state))`.  The fuel bounds re-entrant `setState` nesting. -/
def setState (env : ListenerEnv) : Nat → Machine → Obj → RunResult
  | 0, m, _ => (m, [], .fuelOut)
  | fuel + 1, m, p =>
    let s2 := mergeObj (getState m) p
    let m1 := { m with heap := m.heap ++ [s2], stateRef := m.heap.length }
    notifyGo env (setState env fuel) m1 m1.listeners

/-- `setState` called with an arbitrary JS argument: the spread copies the
argument's own enumerable properties into the merge. -/
def setStateArg (env : ListenerEnv) (fuel : Nat) (m : Machine) (a : JSArg) :
    RunResult :=
  setState env fuel m (spreadKVs a)

/-- `listeners.indexOf(listener)`: index of the first occurrence, `-1` when
absent. -/
def jsIndexOf : List Nat → Nat → Int
  | [], _ => -1
  | x :: xs, l =>
    if x = l then 0
    else
      let r := jsIndexOf xs l
      if r = -1 then -1 else r + 1

/-- The closure returned by `subscribe`, acting on the subscriber array:
`const index = listeners.indexOf(listener); if (index > -1)
listeners.splice(index, 1);`. -/
def unsubscribe (ls : List Nat) (l : Nat) : List Nat :=
  let index := jsIndexOf ls l
  if index > -1 then ls.eraseIdx index.toNat else ls

theorem getD_append_left {α : Type} (H ext : List α) (n : Nat) (d : α)
    (h : n < H.length) : (H ++ ext).getD n d = H.getD n d := by
  induction H generalizing n with
  | nil => simp at h
  | cons a t ih =>
    cases n with
    | zero => rfl
    | succ n' =>
      show (t ++ ext).getD n' d = t.getD n' d
      exact ih n' (Nat.lt_of_succ_lt_succ h)

theorem getD_append_length {α : Type} (H : List α) (o : α) (ext : List α)
    (d : α) : (H ++ o :: ext).getD H.length d = o := by
  induction H with
  | nil => rfl
  | cons a t ih => exact ih

/-- Notifying a run of purely observing listeners changes nothing: the
machine is returned as it was, the trace invokes them in array order, and
every one of them receives the same current snapshot reference. -/
theorem notifyGo_observer (env : ListenerEnv) (setS : Machine → Obj → RunResult)
    (ls : List Nat) (m : Machine) (h : ∀ l ∈ ls, env l = .observer) :
    notifyGo env setS m ls = (m, ls.map (fun l => ⟨l, m.stateRef⟩), .ok) := by
  induction ls with
  | nil => rfl
  | cons l rest ih =>
    have hl : env l = .observer := h l (List.mem_cons_self l rest)
    have hrest : ∀ x ∈ rest, env x = .observer :=
      fun x hx => h x (List.mem_cons_of_mem l hx)
    simp [notifyGo, hl, ih hrest]

/-- An observing run at the front of the listener array contributes its
invocations (at the entry snapshot) and passes control on unchanged. -/
theorem notifyGo_obs_front (env : ListenerEnv) (setS : Machine → Obj → RunResult)
    (pre rest : List Nat) (m : Machine) (h : ∀ l ∈ pre, env l = .observer) :
    notifyGo env setS m (pre ++ rest) =
      ((notifyGo env setS m rest).1,
       pre.map (fun l => ⟨l, m.stateRef⟩) ++ (notifyGo env setS m rest).2.1,
       (notifyGo env setS m rest).2.2) := by
  induction pre with
  | nil => rfl
  | cons l t ih =>
    have hl : env l = .observer := h l (List.mem_cons_self l t)
    have ht : ∀ x ∈ t, env x = .observer :=
      fun x hx => h x (List.mem_cons_of_mem l hx)
    simp [notifyGo, hl, ih ht]

/-- A throwing listener at the head of the remaining run: it is invoked,
the exception aborts the loop, and the machine is left as it was. -/
theorem notifyGo_thrower (env : ListenerEnv) (setS : Machine → Obj → RunResult)
    (l : Nat) (rest : List Nat) (m : Machine) (h : env l = .thrower) :
    notifyGo env setS m (l :: rest) = (m, [⟨l, m.stateRef⟩], .exn) := by
  simp [notifyGo, h]

/-- Whatever the head listener does, its invocation is the first event of
the run and it receives the snapshot current at entry. -/
theorem notifyGo_head (env : ListenerEnv) (setS : Machine → Obj → RunResult)
    (m : Machine) (l : Nat) (rest : List Nat) :
    ∃ tl, (notifyGo env setS m (l :: rest)).2.1 = ⟨l, m.stateRef⟩ :: tl := by
  cases henv : env l <;> simp only [notifyGo, henv]
  case observer => exact ⟨_, rfl⟩
  case thrower => exact ⟨[], rfl⟩
  case updateDom => exact ⟨_, rfl⟩
  case reenterOnce q =>
    by_cases hf : l ∈ m.fired
    · simp only [if_pos hf]
      exact ⟨_, rfl⟩
    · simp only [if_neg hf]
      cases ho : (setS { m with fired := l :: m.fired } q).2.2 <;> simp only
      · exact ⟨_, rfl⟩
      · exact ⟨_, rfl⟩
      · exact ⟨_, rfl⟩

/-- The notification loop never mutates an existing heap cell: it can only
extend the heap (through re-entrant `setState` calls, which themselves only
extend it). -/
theorem notifyGo_heap_ext (env : ListenerEnv) (setS : Machine → Obj → RunResult)
    (hset : ∀ m p, ∃ ext, (setS m p).1.heap = m.heap ++ ext) :
    ∀ (ls : List Nat) (m : Machine),
      ∃ ext, (notifyGo env setS m ls).1.heap = m.heap ++ ext := by
  intro ls
  induction ls with
  | nil => exact fun m => ⟨[], by simp [notifyGo]⟩
  | cons l rest ih =>
    intro m
    cases henv : env l
    case observer =>
      obtain ⟨ext, hext⟩ := ih m
      exact ⟨ext, by simp [notifyGo, henv, hext]⟩
    case thrower => exact ⟨[], by simp [notifyGo, henv]⟩
    case updateDom =>
      obtain ⟨ext, hext⟩ := ih { m with dom := (interactionUpdate m.dom (getState m)).1 }
      exact ⟨ext, by simp [notifyGo, henv]; exact hext⟩
    case reenterOnce q =>
      by_cases hf : l ∈ m.fired
      · obtain ⟨ext, hext⟩ := ih m
        exact ⟨ext, by simp [notifyGo, henv, if_pos hf, hext]⟩
      · obtain ⟨ext1, hext1⟩ := hset { m with fired := l :: m.fired } q
        cases ho : (setS { m with fired := l :: m.fired } q).2.2
        · obtain ⟨ext2, hext2⟩ := ih (setS { m with fired := l :: m.fired } q).1
          refine ⟨ext1 ++ ext2, ?_⟩
          simp only [notifyGo, henv, if_neg hf, ho]
          rw [hext2, hext1, List.append_assoc]
        · refine ⟨ext1, ?_⟩
          simp only [notifyGo, henv, if_neg hf, ho]
          exact hext1
        · refine ⟨ext1, ?_⟩
          simp only [notifyGo, henv, if_neg hf, ho]
          exact hext1

/-- `setState` only ever appends to the heap: every object allocated before
the call keeps its address and its contents. -/
theorem setState_heap_ext (fuel : Nat) :
    ∀ (env : ListenerEnv) (m : Machine) (p : Obj),
      ∃ ext, (setState env fuel m p).1.heap = m.heap ++ ext := by
  induction fuel with
  | zero => exact fun env m p => ⟨[], by simp [setState]⟩
  | succ f ih =>
    intro env m p
    obtain ⟨ext, hext⟩ :=
      notifyGo_heap_ext env (setState env f) (fun m' p' => ih env m' p')
        { m with heap := m.heap ++ [mergeObj (getState m) p],
                 stateRef := m.heap.length }.listeners
        { m with heap := m.heap ++ [mergeObj (getState m) p],
                 stateRef := m.heap.length }
    refine ⟨mergeObj (getState m) p :: ext, ?_⟩
    show (notifyGo env (setState env f)
        { m with heap := m.heap ++ [mergeObj (getState m) p],
                 stateRef := m.heap.length }
        m.listeners).1.heap = _
    rw [hext]
    simp

/-- Folding `subscribe` over a list of listeners appends them, in order, to
the subscriber array, and touches nothing else. -/
theorem foldl_subscribe (ls : List Nat) (m : Machine) :
    ls.foldl subscribe m = { m with listeners := m.listeners ++ ls } := by
  induction ls generalizing m with
  | nil => simp
  | cons l t ih =>
    show t.foldl subscribe (subscribe m l) = _
    rw [ih]
    simp [subscribe]

theorem jsIndexOf_ge_neg_one (ls : List Nat) (l : Nat) : -1 ≤ jsIndexOf ls l := by
  induction ls with
  | nil => simp [jsIndexOf]
  | cons x xs ih =>
    by_cases h : x = l
    · simp [jsIndexOf, h]
    · simp only [jsIndexOf, if_neg h]
      by_cases hr : jsIndexOf xs l = -1
      · simp [hr]
      · simp only [if_neg hr]
        omega

theorem jsIndexOf_eq_neg_one_iff (ls : List Nat) (l : Nat) :
    jsIndexOf ls l = -1 ↔ l ∉ ls := by
  induction ls with
  | nil => simp [jsIndexOf]
  | cons x xs ih =>
    by_cases h : x = l
    · subst h
      simp [jsIndexOf]
    · have hge := jsIndexOf_ge_neg_one xs l
      have hlx : ¬ l = x := fun hh => h hh.symm
      by_cases hr : jsIndexOf xs l = -1
      · simp [jsIndexOf, if_neg h, hr, ih.mp hr, hlx]
      · have hmem : l ∈ xs := by
          by_contra hnm
          exact hr (ih.mpr hnm)
        have hne : ¬ (jsIndexOf xs l + 1 = -1) := by omega
        simp only [jsIndexOf, if_neg h, if_neg hr, List.mem_cons]
        constructor
        · intro hc
          exact absurd hc hne
        · intro hc
          exact absurd (Or.inr hmem) hc


/-- The `indexOf`/`splice` pair in the unsubscribe closure removes exactly
the first occurrence of the listener identity (and does nothing when no
occurrence exists). -/
theorem unsubscribe_eq_erase (ls : List Nat) (l : Nat) :
    unsubscribe ls l = ls.erase l := by
  induction ls with
  | nil => rfl
  | cons x xs ih =>
    by_cases h : x = l
    · have hidx : jsIndexOf (x :: xs) l = 0 := by
        simp [jsIndexOf, h]
      have herase : (x :: xs).erase l = xs := by
        rw [h]
        exact List.erase_cons_head l xs
      rw [herase]
      simp [unsubscribe, hidx, List.eraseIdx]
    · have hbe : ¬ (x == l) = true := by simp [h]
      rw [List.erase_cons_tail hbe]
      have hge := jsIndexOf_ge_neg_one xs l
      by_cases hr : jsIndexOf xs l = -1
      · have hnm : l ∉ xs := (jsIndexOf_eq_neg_one_iff xs l).mp hr
        have hidx : jsIndexOf (x :: xs) l = -1 := by
          simp [jsIndexOf, h, hr]
        simp [unsubscribe, hidx, List.erase_of_not_mem hnm]
      · have hidx : jsIndexOf (x :: xs) l = jsIndexOf xs l + 1 := by
          simp [jsIndexOf, h, hr]
        have hgt : jsIndexOf xs l + 1 > -1 := by omega
        have htn : (jsIndexOf xs l + 1).toNat = (jsIndexOf xs l).toNat + 1 := by
          omega
        have hxs : unsubscribe xs l = xs.eraseIdx (jsIndexOf xs l).toNat := by
          have hgt0 : jsIndexOf xs l > -1 := by omega
          simp [unsubscribe, hgt0]
        have herase : xs.erase l = xs.eraseIdx (jsIndexOf xs l).toNat := by
          rw [← ih, hxs]
        simp only [unsubscribe, hidx, if_pos hgt, htn]
        show x :: xs.eraseIdx (jsIndexOf xs l).toNat = x :: xs.erase l
        rw [herase]

/-- A listener registered at most once is gone from the array after its
unsubscribe closure runs. -/
theorem unsubscribe_not_mem (ls : List Nat) (l : Nat) (h : ls.count l ≤ 1) :
    l ∉ unsubscribe ls l := by
  rw [unsubscribe_eq_erase]
  intro hmem
  have hcnt := List.count_erase_self l ls
  have hne : (ls.erase l).count l ≠ 0 :=
    fun h0 => (List.count_eq_zero.mp h0) hmem
  omega

/-- Initial application state `{ text: '' }` created in `src/main.js`. -/
def demoState0 : Obj := [("text", JSVal.str "")]

/-- The demo component instance, built from the store's initial snapshot
(node identities 0, 1, 2 for container, input, button). -/
def demoDom : ComponentDom := InteractionModule demoState0 0 1 2

/-- In the demo wiring the single subscriber is
`(newState) => interaction.update(newState)`. -/
def demoEnv : ListenerEnv := fun _ => LBeh.updateDom

/-- The demo app right after `main.js` runs: one state object on the heap,
one subscriber (the component's update). -/
def demoMachine : Machine :=
  { heap := [demoState0], stateRef := 0, listeners := [0], fired := [],
    dom := demoDom }

/-- The partial dispatched by the button's `mousedown` handler:
`onAction({ text: 'Click!' })`. -/
def mousedownAction : Obj := [("text", JSVal.str "Click!")]

/-- The partial dispatched by the button's `mouseup` handler:
`onAction({ text: '' })`. -/
def mouseupAction : Obj := [("text", JSVal.str "")]

/-- The partial dispatched by the button's `mouseleave` handler:
`onAction({ text: '' })`. -/
def mouseleaveAction : Obj := [("text", JSVal.str "")]

/-- Simulate a `mousedown` on the trigger button: the handler forwards its
literal partial through `onAction`, which calls `store.setState`. -/
def fireMousedown (m : Machine) : Machine :=
  (setState demoEnv 1 m mousedownAction).1

/-- Simulate a `mouseup` on the trigger button. -/
def fireMouseup (m : Machine) : Machine :=
  (setState demoEnv 1 m mouseupAction).1

/-- Simulate the pointer leaving the trigger button. -/
def fireMouseleave (m : Machine) : Machine :=
  (setState demoEnv 1 m mouseleaveAction).1

/-- A store whose every subscriber passively observes (used as a concrete
instance in witnesses). -/
def obsEnv : ListenerEnv := fun _ => LBeh.observer

/-- A machine with one observing subscriber. -/
def obsMachine : Machine :=
  { heap := [demoState0], stateRef := 0, listeners := [0], fired := [],
    dom := demoDom }

/-- Listener 0 observes, every other listener throws (used as a concrete
instance in witnesses). -/
def mixedEnv : ListenerEnv := fun l => if l = 0 then LBeh.observer else LBeh.thrower

/-- A machine with an observing subscriber followed by a throwing one. -/
def mixedMachine : Machine :=
  { heap := [demoState0], stateRef := 0, listeners := [0, 1], fired := [],
    dom := demoDom }

/-- Running `setState` over purely observing subscribers: the merged object
is allocated at the fresh address, `state` now points there, every listener
is invoked once in order with that address, and the call returns normally. -/
theorem setState_observer_run (env : ListenerEnv) (fuel : Nat) (m : Machine)
    (p : Obj) (hobs : ∀ l ∈ m.listeners, env l = LBeh.observer) :
    setState env (fuel + 1) m p =
      ({ m with heap := m.heap ++ [mergeObj (getState m) p],
                stateRef := m.heap.length },
       m.listeners.map (fun l => ⟨l, m.heap.length⟩), SOut.ok) := by
  show notifyGo env (setState env fuel)
      { m with heap := m.heap ++ [mergeObj (getState m) p],
               stateRef := m.heap.length }
      m.listeners = _
  exact notifyGo_observer env (setState env fuel) m.listeners _ hobs

/-- C1: for every state snapshot `s` held by the store and every partial
object `p`, `setState(p)` replaces the snapshot with a freshly allocated
object `s2`: `s2` is not the same reference as `s` (its address is new),
`s2` is the shallow merge of `s` with `p` (every key of `p` overwrites, every
other key of `s` is kept), and the object `s` itself is unchanged at its old
address.  Stated for a well-formed store with passive subscribers; `p` is a
genuine JS object (no duplicate keys). -/
theorem c1_setState_immutability (env : ListenerEnv) (fuel : Nat) (m : Machine)
    (p : Obj) (hwf : m.stateRef < m.heap.length)
    (hobs : ∀ l ∈ m.listeners, env l = LBeh.observer)
    (hnd : (p.map Prod.fst).Nodup) :
    (setState env (fuel + 1) m p).1.stateRef ≠ m.stateRef ∧
    getState (setState env (fuel + 1) m p).1 = mergeObj (getState m) p ∧
    getObj (setState env (fuel + 1) m p).1 m.stateRef = getState m ∧
    (∀ k v, jsGet? p k = some v →
      jsGet? (getState (setState env (fuel + 1) m p).1) k = some v) ∧
    (∀ k, jsGet? p k = none →
      jsGet? (getState (setState env (fuel + 1) m p).1) k
        = jsGet? (getState m) k) ∧
    (setState env (fuel + 1) m p).2.2 = SOut.ok := by
  rw [setState_observer_run env fuel m p hobs]
  have hmerge :
      getState { m with heap := m.heap ++ [mergeObj (getState m) p],
                        stateRef := m.heap.length }
        = mergeObj (getState m) p :=
    getD_append_length m.heap (mergeObj (getState m) p) [] []
  refine ⟨?_, hmerge, ?_, ?_, ?_, rfl⟩
  · show m.heap.length ≠ m.stateRef
    omega
  · exact getD_append_left m.heap [mergeObj (getState m) p] m.stateRef [] hwf
  · intro k v hk
    rw [hmerge, jsGet?_mergeObj _ _ _ hnd, hk]
  · intro k hk
    rw [hmerge, jsGet?_mergeObj _ _ _ hnd, hk]

/-- C1 witness at a concrete store and partial. -/
theorem c1_setState_immutability_witness :
    (setState obsEnv 1 obsMachine mousedownAction).1.stateRef
        ≠ obsMachine.stateRef ∧
    getState (setState obsEnv 1 obsMachine mousedownAction).1
        = mergeObj (getState obsMachine) mousedownAction := by
  have h := c1_setState_immutability obsEnv 0 obsMachine mousedownAction
    (by decide) (by decide) (by decide)
  exact ⟨h.1, h.2.1⟩

/-- C2: after `subscribe(l1), ..., subscribe(ln)` on a store with no prior
subscribers, one `setState(p)` invokes exactly `l1..ln`, in subscription
order, each receiving the identical new snapshot reference; the full trace
is produced inside the `setState` call itself (so every invocation
completes before it returns, with outcome `ok`), for every partial `p` —
including one whose merge is value-equal to the previous state (no
deduplication, no batching).  With distinct listeners, each is invoked
exactly once.  Stated for passive listeners. -/
theorem c2_notification_order (env : ListenerEnv) (fuel : Nat) (m0 : Machine)
    (ls : List Nat) (p : Obj) (hinit : m0.listeners = [])
    (hobs : ∀ l ∈ ls, env l = LBeh.observer) :
    (setState env (fuel + 1) (ls.foldl subscribe m0) p).2.1
        = ls.map (fun l => ⟨l, m0.heap.length⟩) ∧
    (setState env (fuel + 1) (ls.foldl subscribe m0) p).2.2 = SOut.ok ∧
    (ls.Nodup → ∀ l ∈ ls,
      ((setState env (fuel + 1) (ls.foldl subscribe m0) p).2.1).count
          ⟨l, m0.heap.length⟩ = 1) := by
  have hm : ls.foldl subscribe m0 = { m0 with listeners := ls } := by
    rw [foldl_subscribe, hinit]
    rfl
  rw [hm, setState_observer_run env fuel { m0 with listeners := ls } p hobs]
  refine ⟨rfl, rfl, ?_⟩
  intro hnd l hl
  have hinj : Function.Injective
      (fun x => (⟨x, m0.heap.length⟩ : SEvent)) := by
    intro a b hab
    simpa using hab
  show (ls.map (fun x => (⟨x, m0.heap.length⟩ : SEvent))).count
      ⟨l, m0.heap.length⟩ = 1
  rw [List.count_map_of_injective ls _ hinj l,
    List.count_eq_one_of_mem hnd hl]

/-- C2 witness at a concrete subscription sequence. -/
theorem c2_notification_order_witness :
    (setState obsEnv 1
        ([4, 9].foldl subscribe
          { heap := [demoState0], stateRef := 0, listeners := [], fired := [],
            dom := demoDom })
        mousedownAction).2.1 = [⟨4, 1⟩, ⟨9, 1⟩] ∧
    (setState obsEnv 1
        ([4, 9].foldl subscribe
          { heap := [demoState0], stateRef := 0, listeners := [], fired := [],
            dom := demoDom })
        mousedownAction).2.1.count ⟨4, 1⟩ = 1 := by
  have h := c2_notification_order obsEnv 0
    { heap := [demoState0], stateRef := 0, listeners := [], fired := [],
      dom := demoDom }
    [4, 9] mousedownAction rfl (by decide)
  exact ⟨h.1, h.2.2 (by decide) 4 (by decide)⟩

/-- C3: the demo wiring end to end.  The display starts empty; the
`mousedown` handler dispatches exactly `{ text: 'Click!' }` through
`onAction`, the subscriber runs (once, synchronously), and the display
input's value becomes "Click!"; a subsequent `mouseup` dispatches exactly
`{ text: '' }` and the display reverts to ""; a `mousedown` followed by a
`mouseleave` (press-cancel) likewise dispatches exactly `{ text: '' }` and
leaves the display at "". -/
theorem c3_demo_end_to_end :
    demoMachine.dom.inputValue = "" ∧
    mousedownAction = [("text", JSVal.str "Click!")] ∧
    (setState demoEnv 1 demoMachine mousedownAction).2.1 = [⟨0, 1⟩] ∧
    (fireMousedown demoMachine).dom.inputValue = "Click!" ∧
    mouseupAction = [("text", JSVal.str "")] ∧
    (fireMouseup (fireMousedown demoMachine)).dom.inputValue = "" ∧
    mouseleaveAction = [("text", JSVal.str "")] ∧
    (fireMouseleave (fireMousedown demoMachine)).dom.inputValue = "" :=
  ⟨rfl, rfl, rfl, rfl, rfl, rfl, rfl, rfl⟩

/-- C4 counterexample: with the same listener identity subscribed twice,
the second run of the unsubscribe closure is NOT a no-op — `indexOf` finds
the remaining registration and `splice` removes it too, so the subscriber
list changes again. -/
theorem c4_unsubscribe_counterexample :
    unsubscribe (unsubscribe [7, 7] 7) 7 ≠ unsubscribe [7, 7] 7 := by decide

/-- C4 (amended): the closure returned by `subscribe(l)` removes, on its
first run, the first occurrence of exactly that listener identity (it
always equals `List.erase`); provided the identity is registered at most
once — the source does not deduplicate, so with duplicate registrations a
repeat call removes the next occurrence — the listener is gone after the
first removal, a repeat call finds no matching entry and leaves the list
unchanged (and, being total, raises nothing), and a store whose subscriber
list no longer holds the listener never notifies it again. -/
theorem c4_unsubscribe_idempotent (ls : List Nat) (l : Nat)
    (h : ls.count l ≤ 1) :
    unsubscribe ls l = ls.erase l ∧
    l ∉ unsubscribe ls l ∧
    unsubscribe (unsubscribe ls l) l = unsubscribe ls l ∧
    (∀ (env : ListenerEnv) (fuel : Nat) (m : Machine) (p : Obj),
      m.listeners = unsubscribe ls l →
      (∀ x ∈ m.listeners, env x = LBeh.observer) →
      ∀ ev ∈ (setState env (fuel + 1) m p).2.1, ev.lid ≠ l) := by
  have hnm : l ∉ unsubscribe ls l := unsubscribe_not_mem ls l h
  refine ⟨unsubscribe_eq_erase ls l, hnm, ?_, ?_⟩
  · rw [unsubscribe_eq_erase (unsubscribe ls l) l,
      List.erase_of_not_mem hnm]
  · intro env fuel m p hml hobs ev hev
    rw [setState_observer_run env fuel m p hobs] at hev
    simp only [List.mem_map] at hev
    obtain ⟨x, hx, hevx⟩ := hev
    rw [← hevx]
    intro hxl
    rw [hml] at hx
    exact hnm (hxl ▸ hx)

/-- C4 witness at a concrete subscriber list. -/
theorem c4_unsubscribe_idempotent_witness :
    unsubscribe [3, 5] 3 = [5] ∧
    unsubscribe (unsubscribe [3, 5] 3) 3 = unsubscribe [3, 5] 3 := by
  have h := c4_unsubscribe_idempotent [3, 5] 3 (by decide)
  exact ⟨h.1.trans (by decide), h.2.2.1⟩

/-- C5 counterexample: with the rendered field a number (`{ text: 5 }`),
the second of two consecutive `update` calls with identical state still
writes the DOM property: the input's value is the coerced string "5", which
is strictly `!==` the number `5`, so the guard never suppresses the
write. -/
theorem c5_update_counterexample :
    (interactionUpdate
        (interactionUpdate (InteractionModule [("text", JSVal.num 5)] 0 1 2)
          [("text", JSVal.num 5)]).1
        [("text", JSVal.num 5)]).2 ≠ 0 := by decide

/-- C5 (amended): when two consecutive `update` calls carry states agreeing
on the rendered field and that field is a string (the shape the state model
prescribes), the second call performs zero DOM property writes: the first
call leaves `input.value` equal to that string, so the strict-inequality
guard rejects the write. -/
theorem c5_selective_update_minimality (dom : ComponentDom) (s1 s2 : Obj)
    (heq : jsGet s2 "text" = jsGet s1 "text")
    (hstr : ∃ t, jsGet s1 "text" = JSVal.str t) :
    (interactionUpdate (interactionUpdate dom s1).1 s2).2 = 0 := by
  obtain ⟨t, ht⟩ := hstr
  by_cases h : JSVal.str dom.inputValue ≠ jsGet s1 "text"
  · have h1 : (interactionUpdate dom s1).1
        = { dom with inputValue := jsToString (jsGet s1 "text") } := by
      simp only [interactionUpdate, if_pos h]
    rw [h1]
    have hv : JSVal.str
        ({ dom with inputValue := jsToString (jsGet s1 "text") }
          : ComponentDom).inputValue = jsGet s2 "text" := by
      rw [heq, ht]
      rfl
    simp [interactionUpdate, hv]
  · push_neg at h
    have h1 : (interactionUpdate dom s1).1 = dom := by
      simp only [interactionUpdate, ne_eq, h, not_true_eq_false, ite_false]
    rw [h1]
    have hv : JSVal.str dom.inputValue = jsGet s2 "text" := by
      rw [heq, h]
    simp [interactionUpdate, hv]

/-- C5 witness at the demo component and state. -/
theorem c5_selective_update_minimality_witness :
    (interactionUpdate (interactionUpdate demoDom demoState0).1
      demoState0).2 = 0 :=
  c5_selective_update_minimality demoDom demoState0 demoState0 rfl
    ⟨"", by decide⟩

/-- One `update` call can change only the input's `value` property: node
identities and attached listeners survive it. -/
theorem interactionUpdate_frame (d : ComponentDom) (s : Obj) :
    (interactionUpdate d s).1.containerId = d.containerId ∧
    (interactionUpdate d s).1.inputId = d.inputId ∧
    (interactionUpdate d s).1.buttonId = d.buttonId ∧
    (interactionUpdate d s).1.buttonEvents = d.buttonEvents := by
  by_cases h : JSVal.str d.inputValue ≠ jsGet s "text" <;>
    simp [interactionUpdate, h]

/-- C6: across any sequence of `update` calls with arbitrary payloads, the
component never replaces its root or descendant nodes: the container, input
and button identities and the button's attached event listeners are all
preserved — the only DOM field `update` can write is the input's `value`
property. -/
theorem c6_no_dom_rebuild (dom : ComponentDom) (states : List Obj) :
    (states.foldl (fun d s => (interactionUpdate d s).1) dom).containerId
        = dom.containerId ∧
    (states.foldl (fun d s => (interactionUpdate d s).1) dom).inputId
        = dom.inputId ∧
    (states.foldl (fun d s => (interactionUpdate d s).1) dom).buttonId
        = dom.buttonId ∧
    (states.foldl (fun d s => (interactionUpdate d s).1) dom).buttonEvents
        = dom.buttonEvents := by
  induction states generalizing dom with
  | nil => exact ⟨rfl, rfl, rfl, rfl⟩
  | cons s rest ih =>
    have hstep := interactionUpdate_frame dom s
    have hrest := ih ((interactionUpdate dom s).1)
    exact ⟨hrest.1.trans hstep.1, (hrest.2.1).trans hstep.2.1,
      (hrest.2.2.1).trans hstep.2.2.1, (hrest.2.2.2).trans hstep.2.2.2⟩

/-- C7: when the subscriber at position `i` (after observing listeners
`pre`) throws during `setState(p)`, the exception propagates synchronously
out of `setState` and the subscribers after position `i` are not invoked —
the trace stops at the thrower, with no recovery, retry, catch or logging
inside `setState`. -/
theorem c7_subscriber_throw_propagates (env : ListenerEnv) (fuel : Nat)
    (m : Machine) (p : Obj) (pre post : List Nat) (t : Nat)
    (hls : m.listeners = pre ++ t :: post)
    (hpre : ∀ x ∈ pre, env x = LBeh.observer)
    (ht : env t = LBeh.thrower) :
    (setState env (fuel + 1) m p).2.2 = SOut.exn ∧
    (setState env (fuel + 1) m p).2.1
        = pre.map (fun l => ⟨l, m.heap.length⟩) ++ [⟨t, m.heap.length⟩] := by
  have hbody : setState env (fuel + 1) m p
      = notifyGo env (setState env fuel)
          { m with heap := m.heap ++ [mergeObj (getState m) p],
                   stateRef := m.heap.length }
          m.listeners := rfl
  rw [hbody, hls,
    notifyGo_obs_front env (setState env fuel) pre (t :: post) _ hpre,
    notifyGo_thrower env (setState env fuel) t post _ ht]
  exact ⟨rfl, rfl⟩

/-- C7 witness: observer then thrower. -/
theorem c7_subscriber_throw_propagates_witness :
    (setState mixedEnv 1 mixedMachine mousedownAction).2.2 = SOut.exn ∧
    (setState mixedEnv 1 mixedMachine mousedownAction).2.1
        = [⟨0, 1⟩, ⟨1, 1⟩] := by
  have h := c7_subscriber_throw_propagates mixedEnv 0 mixedMachine
    mousedownAction [0] [] 1 rfl (by decide) (by decide)
  exact ⟨h.1, h.2.trans (by decide)⟩

/-- C8 counterexample: `setState(null)` — `onAction` with a non-object —
does NOT fail: the spread of `null` contributes no properties, the call
completes normally (no exception reaches the caller), and the subscriber is
still notified once. -/
theorem c8_non_object_counterexample :
    (setStateArg obsEnv 1 obsMachine JSArg.nul).2.2 = SOut.ok ∧
    (setStateArg obsEnv 1 obsMachine JSArg.nul).2.1 = [⟨0, 1⟩] :=
  ⟨rfl, rfl⟩

/-- C8 (amended): no validation, recovery, retry or logging layer
intervenes anywhere, but the two malformed-input cases behave differently:
a registered listener that throws makes the triggering `setState` fail with
the exception propagating synchronously to its caller, whereas a non-object
argument to `onAction`/`setState` raises nothing — with passive subscribers
the call completes normally for every argument whatsoever, and when the
argument's spread contributes no properties (`null`, `undefined`, numbers,
booleans) the stored state is value-unchanged. -/
theorem c8_malformed_input (env : ListenerEnv) (fuel : Nat) (m : Machine) :
    ((∀ l ∈ m.listeners, env l = LBeh.observer) → ∀ a : JSArg,
      (setStateArg env (fuel + 1) m a).2.2 = SOut.ok ∧
      (spreadKVs a = [] →
        getState (setStateArg env (fuel + 1) m a).1 = getState m)) ∧
    (∀ (p : Obj) (pre post : List Nat) (t : Nat),
      m.listeners = pre ++ t :: post →
      (∀ x ∈ pre, env x = LBeh.observer) →
      env t = LBeh.thrower →
      (setState env (fuel + 1) m p).2.2 = SOut.exn) := by
  constructor
  · intro hobs a
    have hrun := setState_observer_run env fuel m (spreadKVs a) hobs
    constructor
    · show (setState env (fuel + 1) m (spreadKVs a)).2.2 = SOut.ok
      rw [hrun]
    · intro hsp
      show getState (setState env (fuel + 1) m (spreadKVs a)).1 = getState m
      rw [hrun]
      show (m.heap ++ [mergeObj (getState m) (spreadKVs a)]).getD
          m.heap.length [] = getState m
      rw [getD_append_length m.heap (mergeObj (getState m) (spreadKVs a)) [] [],
        hsp]
      rfl
  · intro p pre post t hls hpre ht
    have hbody : setState env (fuel + 1) m p
        = notifyGo env (setState env fuel)
            { m with heap := m.heap ++ [mergeObj (getState m) p],
                     stateRef := m.heap.length }
            m.listeners := rfl
    rw [hbody, hls,
      notifyGo_obs_front env (setState env fuel) pre (t :: post) _ hpre,
      notifyGo_thrower env (setState env fuel) t post _ ht]

/-- C8 witness: a number argument completes normally and leaves the state
value-unchanged; a throwing listener aborts with the exception. -/
theorem c8_malformed_input_witness :
    (setStateArg obsEnv 1 obsMachine (JSArg.num 5)).2.2 = SOut.ok ∧
    getState (setStateArg obsEnv 1 obsMachine (JSArg.num 5)).1
        = getState obsMachine ∧
    (setState mixedEnv 1 mixedMachine mouseupAction).2.2 = SOut.exn := by
  have h1 := (c8_malformed_input obsEnv 0 obsMachine).1 (by decide)
    (JSArg.num 5)
  have h2 := (c8_malformed_input mixedEnv 0 mixedMachine).2 mouseupAction
    [0] [] 1 rfl (by decide) (by decide)
  exact ⟨h1.1, h1.2 rfl, h2⟩

/-- C9: `setState` assigns the merged snapshot to the store's `state`
variable before invoking any subscriber: whatever the subscribers do, the
merged object sits untouched at the fresh address, and the first notified
listener already receives that address.  Consequently, when a subscriber
throws mid-notification the update is not rolled back: after the exception
escapes `setState`, `getState()` returns the merged snapshot, not the
pre-call state. -/
theorem c9_no_rollback (env : ListenerEnv) (fuel : Nat) (m : Machine)
    (p : Obj) :
    getObj (setState env (fuel + 1) m p).1 m.heap.length
        = mergeObj (getState m) p ∧
    (∀ l rest, m.listeners = l :: rest →
      ∃ tl, (setState env (fuel + 1) m p).2.1
        = ⟨l, m.heap.length⟩ :: tl) ∧
    (∀ (pre post : List Nat) (t : Nat),
      m.listeners = pre ++ t :: post →
      (∀ x ∈ pre, env x = LBeh.observer) →
      env t = LBeh.thrower →
      (setState env (fuel + 1) m p).1.stateRef = m.heap.length ∧
      getState (setState env (fuel + 1) m p).1
        = mergeObj (getState m) p) := by
  have hbody : setState env (fuel + 1) m p
      = notifyGo env (setState env fuel)
          { m with heap := m.heap ++ [mergeObj (getState m) p],
                   stateRef := m.heap.length }
          m.listeners := rfl
  refine ⟨?_, ?_, ?_⟩
  · obtain ⟨ext, hext⟩ := notifyGo_heap_ext env (setState env fuel)
      (fun m' p' => setState_heap_ext fuel env m' p')
      m.listeners
      { m with heap := m.heap ++ [mergeObj (getState m) p],
               stateRef := m.heap.length }
    show (setState env (fuel + 1) m p).1.heap.getD m.heap.length [] = _
    rw [hbody, hext]
    show ((m.heap ++ [mergeObj (getState m) p]) ++ ext).getD m.heap.length []
        = _
    rw [List.append_assoc]
    exact getD_append_length m.heap _ ext []
  · intro l rest hls
    rw [hbody, hls]
    exact notifyGo_head env (setState env fuel) _ l rest
  · intro pre post t hls hpre ht
    rw [hbody, hls,
      notifyGo_obs_front env (setState env fuel) pre (t :: post) _ hpre,
      notifyGo_thrower env (setState env fuel) t post _ ht]
    refine ⟨rfl, ?_⟩
    exact getD_append_length m.heap _ [] []

/-- C9 witness: concrete store with an observer then a thrower. -/
theorem c9_no_rollback_witness :
    getObj (setState mixedEnv 1 mixedMachine mousedownAction).1 1
        = mergeObj (getState mixedMachine) mousedownAction ∧
    (∃ tl, (setState mixedEnv 1 mixedMachine mousedownAction).2.1
        = ⟨0, 1⟩ :: tl) ∧
    getState (setState mixedEnv 1 mixedMachine mousedownAction).1
        = mergeObj (getState mixedMachine) mousedownAction := by
  have h := c9_no_rollback mixedEnv 0 mixedMachine mousedownAction
  exact ⟨h.1, h.2.1 0 [1] rfl,
    (h.2.2 [0] [] 1 rfl (by decide) (by decide)).2⟩

/-- C10: each subscriber receives the store's state as it is at the moment
of its own invocation, not a snapshot from when the triggering `setState`
began.  Listener `0` re-enters once with `q`, listener `1` observes; the
store starts in state `s` (address 0).  `setState(p)` allocates
`merge(s,p)` at address 1 and notifies listener `0` with it; the nested
`setState(q)` allocates `merge(merge(s,p),q)` at address 2 and completes
fully — notifying listener `0` (now passive) and listener `1` with address
2 — before the outer loop resumes; listener `1`'s outer-batch invocation
then also receives address 2, i.e. `merge(merge(s,p),q)`, not
`merge(s,p)`. -/
theorem c10_nested_setState (s p q : Obj) (dom : ComponentDom) :
    (setState (fun l => if l = 0 then LBeh.reenterOnce q else LBeh.observer)
        2
        { heap := [s], stateRef := 0, listeners := [0, 1], fired := [],
          dom := dom } p).2.1
      = [⟨0, 1⟩, ⟨0, 2⟩, ⟨1, 2⟩, ⟨1, 2⟩] ∧
    (setState (fun l => if l = 0 then LBeh.reenterOnce q else LBeh.observer)
        2
        { heap := [s], stateRef := 0, listeners := [0, 1], fired := [],
          dom := dom } p).1.heap
      = [s, mergeObj s p, mergeObj (mergeObj s p) q] ∧
    (setState (fun l => if l = 0 then LBeh.reenterOnce q else LBeh.observer)
        2
        { heap := [s], stateRef := 0, listeners := [0, 1], fired := [],
          dom := dom } p).1.stateRef = 2 ∧
    (setState (fun l => if l = 0 then LBeh.reenterOnce q else LBeh.observer)
        2
        { heap := [s], stateRef := 0, listeners := [0, 1], fired := [],
          dom := dom } p).2.2 = SOut.ok :=
  ⟨rfl, rfl, rfl, rfl⟩

end VanillaSpirit
